import Mathlib

/-!
Verification of the drill-file-to-SVG converter `examples/drl2svg.go`.

The program reads a Kicad "drl" file line by line, building a tool table,
a hole list and a bounding extent, and then emits, per hole, concentric
circles whose radii step inward by 45% of the CNC bit diameter.

The embedding below follows `main` in `examples/drl2svg.go`:
  * floating point (`float64`) is modelled by `ℚ`;
  * `fmt.Sscanf(line, "T%dC%f", ...)` and `fmt.Sscanf(line, "X%fY%f", ...)`
    are modelled by explicit character-list scanners (`scanTC`, `scanXY`)
    over the decimal subset of the Go verbs that the drl format uses:
    an optional sign, digits, an optional fractional part; exponents,
    hex floats and the whitespace-skipping of Go verbs are not modelled,
    as no input in the specification uses them.  As with `Sscanf`,
    trailing input after the format is ignored;
  * the `map[string]float64` tool table is modelled by an association
    list with overwrite-on-insert (`insertTool`) and first-match lookup
    (`lookupTool`);
  * `log.Fatalf` is modelled by `Except.error`;
  * the `for dr := h.Radius; dr > 0; dr -= 0.45 * *bitSize` loop is
    modelled by the fuel-indexed `radiiLoop`; `genRadii` runs it with
    enough fuel to reach the loop's natural exit whenever the step is
    positive (for a non-positive step the Go loop diverges whenever the
    initial radius is positive; this is settled by `c10_termination`);
  * `log.Printf` debugging output is modelled by the list of diagnostic
    strings returned next to the state, so that the effect of the
    `--debug` flag is visible in the model.
-/

namespace Drl2svg

/-- The digits at the front of a character list, and the rest. -/
def takeDigits : List Char → List Char × List Char
  | [] => ([], [])
  | c :: cs =>
    if c.isDigit then
      let p := takeDigits cs
      (c :: p.1, p.2)
    else ([], c :: cs)

/-- Decimal value of a digit string. -/
def digitsToNat (ds : List Char) : ℕ :=
  ds.foldl (fun acc c => 10 * acc + (c.toNat - Char.toNat '0')) 0

/-- Scan a nonempty run of decimal digits (part of the `%d` / `%f` verbs). -/
def scanNat (cs : List Char) : Option (ℕ × List Char) :=
  let p := takeDigits cs
  if p.1.isEmpty then none else some (digitsToNat p.1, p.2)

/-- The `%d` verb of `fmt.Sscanf`: an optional sign then decimal digits. -/
def scanInt : List Char → Option (Int × List Char)
  | '-' :: cs => (scanNat cs).map (fun p => (-(p.1 : Int), p.2))
  | '+' :: cs => (scanNat cs).map (fun p => ((p.1 : Int), p.2))
  | cs => (scanNat cs).map (fun p => ((p.1 : Int), p.2))

/-- An unsigned decimal of the `%f` verb: digits with an optional
fractional part (at least one digit overall). -/
def scanUFloat (cs : List Char) : Option (ℚ × List Char) :=
  let p := takeDigits cs
  match p.2 with
  | '.' :: rest =>
    let q := takeDigits rest
    if p.1.isEmpty && q.1.isEmpty then none
    else some ((digitsToNat p.1 : ℚ) + (digitsToNat q.1 : ℚ) / (10 : ℚ) ^ q.1.length, q.2)
  | _ => if p.1.isEmpty then none else some ((digitsToNat p.1 : ℚ), p.2)

/-- The `%f` verb of `fmt.Sscanf` (decimal subset): optional sign then
an unsigned decimal. -/
def scanFloat : List Char → Option (ℚ × List Char)
  | '-' :: cs => (scanUFloat cs).map (fun p => (-p.1, p.2))
  | '+' :: cs => scanUFloat cs
  | cs => scanUFloat cs

/-- Match one literal character of an `Sscanf` format string. -/
def expectChar (c : Char) : List Char → Option (List Char)
  | [] => none
  | x :: xs => if x = c then some xs else none

/-- `fmt.Sscanf(line, "T%dC%f", &tool, &param1)` succeeding with `n == 2`
(drl2svg.go line 67).  Trailing characters are ignored, as by `Sscanf`. -/
def scanTC (line : String) : Option (Int × ℚ) := do
  let r1 ← expectChar 'T' line.toList
  let (t, r2) ← scanInt r1
  let r3 ← expectChar 'C' r2
  let (d, _) ← scanFloat r3
  pure (t, d)

/-- `fmt.Sscanf(line, "X%fY%f", &param1, &param2)` succeeding with `n == 2`
(drl2svg.go line 82). -/
def scanXY (line : String) : Option (ℚ × ℚ) := do
  let r1 ← expectChar 'X' line.toList
  let (x, r2) ← scanFloat r1
  let r3 ← expectChar 'Y' r2
  let (y, _) ← scanFloat r3
  pure (x, y)

/-- `tools[key] = d` on the Go map, modelled on an association list. -/
def insertTool (key : String) (d : ℚ) : List (String × ℚ) → List (String × ℚ)
  | [] => [(key, d)]
  | (k, v) :: rest => if k = key then (key, d) :: rest else (k, v) :: insertTool key d rest

/-- `d, ok := tools[line]` on the Go map. -/
def lookupTool (key : String) : List (String × ℚ) → Option ℚ
  | [] => none
  | (k, v) :: rest => if k = key then some v else lookupTool key rest

/-- The `Hole` struct of drl2svg.go (lines 28-32). -/
structure Hole where
  Radius : ℚ
  Cx : ℚ
  Cy : ℚ
  deriving Repr, DecidableEq

/-- One `canvas.Circle(cx, cy, r)` call (drl2svg.go line 142). -/
structure Circle where
  cx : ℚ
  cy : ℚ
  r : ℚ
  deriving Repr, DecidableEq

/-- The mutable locals of `main` that the line-processing loop updates
(drl2svg.go lines 43-50). -/
structure State where
  tools : List (String × ℚ)
  holes : List Hole
  toolRadius : ℚ
  maxToolDiameter : ℚ
  factor : ℚ
  leftEdge : ℚ
  rightEdge : ℚ
  topEdge : ℚ
  bottomEdge : ℚ
  deriving Repr, DecidableEq

/-- The zero values the locals of `main` start from. -/
def initState : State :=
  { tools := [], holes := [], toolRadius := 0, maxToolDiameter := 0, factor := 0,
    leftEdge := 0, rightEdge := 0, topEdge := 0, bottomEdge := 0 }

/-- One iteration of the scanning loop of `main` (drl2svg.go lines 54-107):
the branch order is METRIC, INCH, the `T%dC%f` scan, the tool-table lookup,
the `X%fY%f` scan, and otherwise the line is ignored (logged under
`--debug`).  `log.Fatalf` on an undersized tool is the `Except.error`
branch; the returned string list holds the debug diagnostics. -/
def processLine (bitSize : ℚ) (debug : Bool) (st : State) (line : String) :
    Except String (State × List String) :=
  if line = "METRIC" then .ok ({ st with factor := 1 }, [])
  else if line = "INCH" then .ok ({ st with factor := 254 / 10 }, [])
  else
    match scanTC line with
    | some (tool, param1) =>
      if param1 < bitSize then
        .error ("unable to handle tool diameter " ++ line)
      else
        let d := param1 * st.factor
        let newMax := if st.tools = [] ∨ d > st.maxToolDiameter then d else st.maxToolDiameter
        .ok ({ st with maxToolDiameter := newMax,
                       tools := insertTool ("T" ++ toString tool) d st.tools }, [])
    | none =>
      match lookupTool line st.tools with
      | some d => .ok ({ st with toolRadius := (d - bitSize) * (1 / 2) }, [])
      | none =>
        match scanXY line with
        | some (px, py) =>
          let h : Hole := { Radius := st.toolRadius, Cx := px * st.factor, Cy := py * st.factor }
          let newLeft := if st.holes = [] ∨ h.Cx - st.toolRadius < st.leftEdge
                         then h.Cx - st.toolRadius else st.leftEdge
          let newRight := if st.holes = [] ∨ h.Cx + st.toolRadius > st.rightEdge
                          then h.Cx + st.toolRadius else st.rightEdge
          let newTop := if st.holes = [] ∨ h.Cy - st.toolRadius < st.topEdge
                        then h.Cy - st.toolRadius else st.topEdge
          let newBottom := if st.holes = [] ∨ h.Cy + st.toolRadius > st.bottomEdge
                           then h.Cy + st.toolRadius else st.bottomEdge
          .ok ({ st with holes := st.holes ++ [h],
                         leftEdge := newLeft, rightEdge := newRight,
                         topEdge := newTop, bottomEdge := newBottom }, [])
        | none =>
          .ok (st, if debug then ["ignored: " ++ line] else [])

/-- The whole `for sc.Scan()` loop: process the lines in order, stopping
at the first fatal error, accumulating debug diagnostics. -/
def processLines (bitSize : ℚ) (debug : Bool) :
    List String → State → Except String (State × List String)
  | [], st => .ok (st, [])
  | l :: ls, st =>
    match processLine bitSize debug st l with
    | .error e => .error e
    | .ok (st1, log1) =>
      match processLines bitSize debug ls st1 with
      | .error e => .error e
      | .ok (st2, log2) => .ok (st2, log1 ++ log2)

/-- The end-of-input margin expansion (drl2svg.go lines 113-116). -/
def expandExtent (st : State) : State :=
  { st with leftEdge := st.leftEdge - st.maxToolDiameter,
            rightEdge := st.rightEdge + st.maxToolDiameter,
            topEdge := st.topEdge - st.maxToolDiameter,
            bottomEdge := st.bottomEdge + st.maxToolDiameter }

/-- The arguments of `canvas.StartviewUnit` (drl2svg.go line 135). -/
structure Viewport where
  w : ℚ
  h : ℚ
  minx : ℚ
  miny : ℚ
  vw : ℚ
  vh : ℚ
  deriving Repr, DecidableEq

/-- The viewport handed to the output stage, from the expanded extent. -/
def viewport (st : State) : Viewport :=
  { w := st.rightEdge - st.leftEdge, h := st.bottomEdge - st.topEdge,
    minx := st.leftEdge, miny := st.topEdge,
    vw := st.rightEdge - st.leftEdge, vh := st.bottomEdge - st.topEdge }

/-- The fuel-indexed form of the radius loop
`for dr := h.Radius; dr > 0; dr -= step` (drl2svg.go lines 138-140).
Each unit of fuel allows one more loop iteration. -/
def radiiLoop : ℕ → ℚ → ℚ → List ℚ
  | 0, _, _ => []
  | fuel + 1, dr, step => if 0 < dr then dr :: radiiLoop fuel (dr - step) step else []

/-- Fuel that is enough for the loop to reach its natural exit whenever
`0 < step` (proved in `le_radiiFuel_mul` and `radiiLoop_eq_of_le`):
the numerator of `R / step` bounds `R / step` from above. -/
def radiiFuel (R step : ℚ) : ℕ :=
  (R / step).num.toNat + 1

/-- The radius list the Go loop builds for a hole of cut radius `R` with
step `step = 0.45 * bitSize`. -/
def genRadii (R step : ℚ) : List ℚ :=
  radiiLoop (radiiFuel R step) R step

/-- The circles emitted for one hole: the radius list reversed
(drl2svg.go lines 141-143 walk `radii` from the last index down to 0). -/
def drawHole (bitSize : ℚ) (h : Hole) : List Circle :=
  ((genRadii h.Radius ((45 / 100) * bitSize)).reverse).map
    (fun r => { cx := h.Cx, cy := h.Cy, r := r })

/-- The circles emitted for all holes, in file order
(drl2svg.go line 136). -/
def drawHoles (bitSize : ℚ) (holes : List Hole) : List Circle :=
  holes.flatMap (drawHole bitSize)

/-- The whole run of `main` after the file is opened: parse all the
lines, expand the extent, and hand the viewport and the circle list to
the output stage; the third component is the debug log (the `--debug`
"tools loaded" line is emitted after the scan loop, drl2svg.go
lines 109-111). -/
def run (bitSize : ℚ) (debug : Bool) (lines : List String) :
    Except String (Viewport × List Circle × List String) :=
  match processLines bitSize debug lines initState with
  | .error e => .error e
  | .ok (st, logs) =>
    let st2 := expandExtent st
    .ok (viewport st2, drawHoles bitSize st2.holes,
         logs ++ (if debug then ["tools loaded"] else []))

/-- The geometric part of a run's output: viewport and circles, without
the debug diagnostics. -/
def geomOf (r : Except String (Viewport × List Circle × List String)) :
    Except String (Viewport × List Circle) :=
  r.map (fun x => (x.1, x.2.1))

/-- The extent invariant of the scan loop: the four edges stay at their
zero values while no hole has been emitted, and after exactly one hole
they are that hole's bounding box. -/
def ExtentInv (st : State) : Prop :=
  (st.holes = [] →
    st.leftEdge = 0 ∧ st.rightEdge = 0 ∧ st.topEdge = 0 ∧ st.bottomEdge = 0) ∧
  (∀ h : Hole, st.holes = [h] →
    st.leftEdge = h.Cx - h.Radius ∧ st.rightEdge = h.Cx + h.Radius ∧
    st.topEdge = h.Cy - h.Radius ∧ st.bottomEdge = h.Cy + h.Radius)

/-- The state reached by `METRIC, T1C3.0, T1, X10.0Y10.0` at bit
diameter 1: one hole at (10,10) with cut radius 1, maximum tool
diameter 3 (used as a concrete instance for the extent claims). -/
def oneHoleState : State :=
  { tools := [("T1", 3)], holes := [{ Radius := 1, Cx := 10, Cy := 10 }],
    toolRadius := 1, maxToolDiameter := 3, factor := 1,
    leftEdge := 9, rightEdge := 11, topEdge := 9, bottomEdge := 11 }

/-- The state reached by `METRIC, T1C3.0` at bit diameter 1: a tool but
no holes (used as a concrete instance for the empty-extent claims). -/
def noHoleState : State :=
  { tools := [("T1", 3)], holes := [], toolRadius := 0, maxToolDiameter := 3,
    factor := 1, leftEdge := 0, rightEdge := 0, topEdge := 0, bottomEdge := 0 }

/-- A rational is at most the cast of its numerator's `toNat`. -/
theorem le_num_toNat (q : ℚ) : q ≤ (q.num.toNat : ℚ) := by
  rcases le_or_lt q.num 0 with hn | hn
  · have hq : q ≤ 0 := Rat.num_nonpos.mp hn
    have h0 : (0 : ℚ) ≤ (q.num.toNat : ℚ) := by positivity
    linarith
  · have hcast : ((q.num.toNat : ℕ) : ℚ) = (q.num : ℚ) := by
      exact_mod_cast congrArg (fun z : ℤ => (z : ℚ)) (Int.toNat_of_nonneg hn.le)
    rw [hcast]
    conv_lhs => rw [← Rat.num_div_den q]
    apply div_le_self (by exact_mod_cast hn.le)
    have hd : 1 ≤ q.den := Nat.pos_of_ne_zero q.den_nz
    exact_mod_cast hd

/-- `radiiFuel` iterations are enough: the initial value is at most
`fuel * step`, so the loop condition must fail within the fuel. -/
theorem le_radiiFuel_mul (R step : ℚ) (hs : 0 < step) :
    R ≤ (radiiFuel R step : ℚ) * step := by
  have h1 : R / step ≤ (((R / step).num.toNat : ℕ) : ℚ) := le_num_toNat _
  have h2 : ((radiiFuel R step : ℕ) : ℚ) = (((R / step).num.toNat : ℕ) : ℚ) + 1 := by
    unfold radiiFuel
    push_cast
    ring
  calc R = R / step * step := (div_mul_cancel₀ R hs.ne').symm
    _ ≤ ((((R / step).num.toNat : ℕ) : ℚ) + 1) * step :=
        mul_le_mul_of_nonneg_right (by linarith) hs.le
    _ = (radiiFuel R step : ℚ) * step := by rw [h2]

/-- Characterization of the loop's output when the fuel covers the whole
run: the list holds `dr - i * step` exactly for the indices `i` at which
the loop condition `0 < dr - i * step` still holds. -/
theorem radiiLoop_spec (step : ℚ) (hs : 0 < step) :
    ∀ (fuel : ℕ) (dr : ℚ), dr ≤ (fuel : ℚ) * step →
      (∀ i : ℕ, i < (radiiLoop fuel dr step).length ↔ 0 < dr - (i : ℚ) * step) ∧
      (∀ (i : ℕ) (hi : i < (radiiLoop fuel dr step).length),
        (radiiLoop fuel dr step).get ⟨i, hi⟩ = dr - (i : ℚ) * step) := by
  intro fuel
  induction fuel with
  | zero =>
    intro dr hdr
    have hdr0 : dr ≤ 0 := by simpa using hdr
    constructor
    · intro i
      simp only [radiiLoop, List.length_nil, Nat.not_lt_zero, false_iff, not_lt]
      have hmul : (0 : ℚ) ≤ (i : ℚ) * step := mul_nonneg (by positivity) hs.le
      linarith
    · intro i hi
      exact absurd hi (by simp [radiiLoop])
  | succ n ih =>
    intro dr hdr
    by_cases hpos : 0 < dr
    · have hdr2 : dr - step ≤ (n : ℚ) * step := by
        have hexp : ((n + 1 : ℕ) : ℚ) * step = (n : ℚ) * step + step := by push_cast; ring
        rw [hexp] at hdr
        linarith
      obtain ⟨ih1, ih2⟩ := ih (dr - step) hdr2
      have hL : radiiLoop (n + 1) dr step = dr :: radiiLoop n (dr - step) step := by
        simp [radiiLoop, hpos]
      constructor
      · intro i
        rw [hL]
        cases i with
        | zero => simpa using hpos
        | succ j =>
          simp only [List.length_cons, Nat.succ_lt_succ_iff]
          rw [ih1 j]
          have heq : dr - ((j + 1 : ℕ) : ℚ) * step = dr - step - (j : ℚ) * step := by
            push_cast
            ring
          rw [heq]
      · intro i hi
        revert hi
        rw [hL]
        intro hi
        cases i with
        | zero =>
          simp
        | succ j =>
          have hj : j < (radiiLoop n (dr - step) step).length := by
            simpa using hi
          have hstep : (dr :: radiiLoop n (dr - step) step).get ⟨j + 1, hi⟩
              = (radiiLoop n (dr - step) step).get ⟨j, hj⟩ := rfl
          rw [hstep, ih2 j hj]
          push_cast
          ring
    · have hL : radiiLoop (n + 1) dr step = [] := by
        simp [radiiLoop, hpos]
      have hdr0 : dr ≤ 0 := not_lt.mp hpos
      constructor
      · intro i
        rw [hL]
        simp only [List.length_nil, Nat.not_lt_zero, false_iff, not_lt]
        have hmul : (0 : ℚ) ≤ (i : ℚ) * step := mul_nonneg (by positivity) hs.le
        linarith
      · intro i hi
        exact absurd hi (by simp [hL])

/-- With a positive step, any two fuels that both cover the whole run
give the same list: the loop's output does not depend on the fuel once
it is large enough. -/
theorem radiiLoop_eq_of_le (step : ℚ) :
    ∀ (n m : ℕ) (dr : ℚ), dr ≤ (n : ℚ) * step → dr ≤ (m : ℚ) * step →
      radiiLoop n dr step = radiiLoop m dr step := by
  intro n
  induction n with
  | zero =>
    intro m dr h1 h2
    have hdr0 : dr ≤ 0 := by simpa using h1
    cases m with
    | zero => rfl
    | succ k => simp [radiiLoop, not_lt.mpr hdr0]
  | succ k ihk =>
    intro m dr h1 h2
    cases m with
    | zero =>
      have hdr0 : dr ≤ 0 := by simpa using h2
      simp [radiiLoop, not_lt.mpr hdr0]
    | succ j =>
      by_cases hpos : 0 < dr
      · simp only [radiiLoop, if_pos hpos]
        have hk : dr - step ≤ (k : ℚ) * step := by
          have hexp : ((k + 1 : ℕ) : ℚ) * step = (k : ℚ) * step + step := by push_cast; ring
          rw [hexp] at h1
          linarith
        have hj : dr - step ≤ (j : ℚ) * step := by
          have hexp : ((j + 1 : ℕ) : ℚ) * step = (j : ℚ) * step + step := by push_cast; ring
          rw [hexp] at h2
          linarith
        rw [ihk j (dr - step) hk hj]
      · simp [radiiLoop, hpos]

/-- `genRadii` agrees with the loop run on any other sufficient fuel. -/
theorem genRadii_eq_radiiLoop (R step : ℚ) (hs : 0 < step) (m : ℕ)
    (hm : R ≤ (m : ℚ) * step) : genRadii R step = radiiLoop m R step :=
  radiiLoop_eq_of_le step _ m R (le_radiiFuel_mul R step hs) hm

/-- Index/length characterization of the radius list. -/
theorem genRadii_spec (R step : ℚ) (hs : 0 < step) :
    (∀ i : ℕ, i < (genRadii R step).length ↔ 0 < R - (i : ℚ) * step) ∧
    (∀ (i : ℕ) (hi : i < (genRadii R step).length),
      (genRadii R step).get ⟨i, hi⟩ = R - (i : ℚ) * step) :=
  radiiLoop_spec step hs (radiiFuel R step) R (le_radiiFuel_mul R step hs)

/-- The reversed radius list is strictly increasing. -/
theorem genRadii_reverse_sorted (R step : ℚ) (hs : 0 < step) :
    List.Sorted (fun a b => a < b) (genRadii R step).reverse := by
  rw [List.Sorted, List.pairwise_reverse]
  rw [List.pairwise_iff_get]
  intro i j hij
  obtain ⟨hiff, hget⟩ := genRadii_spec R step hs
  rw [hget i i.isLt, hget j j.isLt]
  have hmul : ((i : ℕ) : ℚ) * step < ((j : ℕ) : ℚ) * step := by
    apply mul_lt_mul_of_pos_right _ hs
    exact_mod_cast hij
  linarith

/-- A non-positive initial radius gives the empty radius list: the loop
condition fails at once. -/
theorem genRadii_of_nonpos (R step : ℚ) (hR : R ≤ 0) : genRadii R step = [] := by
  unfold genRadii radiiFuel
  simp [radiiLoop, not_lt.mpr hR]

/-- Dispatch equation: a `METRIC` line sets the scale factor to 1. -/
theorem processLine_metric (B : ℚ) (dbg : Bool) (st : State) :
    processLine B dbg st "METRIC" = .ok ({ st with factor := 1 }, []) := rfl

/-- Dispatch equation: an `INCH` line sets the scale factor to 25.4. -/
theorem processLine_inch (B : ℚ) (dbg : Bool) (st : State) :
    processLine B dbg st "INCH" = .ok ({ st with factor := 254 / 10 }, []) := rfl

/-- Dispatch equation: a tool-definition line whose raw diameter is below
the bit diameter is fatal. -/
theorem processLine_toolDef_err (B : ℚ) (dbg : Bool) (st : State) (line : String)
    (tool : Int) (param1 : ℚ) (h1 : line ≠ "METRIC") (h2 : line ≠ "INCH")
    (hsc : scanTC line = some (tool, param1)) (hlt : param1 < B) :
    processLine B dbg st line = .error ("unable to handle tool diameter " ++ line) := by
  unfold processLine
  rw [if_neg h1, if_neg h2, hsc]
  dsimp only
  rw [if_pos hlt]

/-- Dispatch equation: an accepted tool-definition line records the
scaled diameter and updates the running maximum. -/
theorem processLine_toolDef_ok (B : ℚ) (dbg : Bool) (st : State) (line : String)
    (tool : Int) (param1 : ℚ) (h1 : line ≠ "METRIC") (h2 : line ≠ "INCH")
    (hsc : scanTC line = some (tool, param1)) (hge : ¬ param1 < B) :
    processLine B dbg st line = .ok
      ({ st with
          maxToolDiameter := if st.tools = [] ∨ param1 * st.factor > st.maxToolDiameter
                             then param1 * st.factor else st.maxToolDiameter,
          tools := insertTool ("T" ++ toString tool) (param1 * st.factor) st.tools }, []) := by
  unfold processLine
  rw [if_neg h1, if_neg h2, hsc]
  dsimp only
  rw [if_neg hge]

/-- Dispatch equation: a bare line naming a known tool selects it. -/
theorem processLine_select (B : ℚ) (dbg : Bool) (st : State) (line : String) (d : ℚ)
    (h1 : line ≠ "METRIC") (h2 : line ≠ "INCH") (hsc : scanTC line = none)
    (hlk : lookupTool line st.tools = some d) :
    processLine B dbg st line = .ok ({ st with toolRadius := (d - B) * (1 / 2) }, []) := by
  unfold processLine
  rw [if_neg h1, if_neg h2, hsc, hlk]

/-- Dispatch equation: a coordinate line emits a hole and folds it into
the running extent. -/
theorem processLine_coord (B : ℚ) (dbg : Bool) (st : State) (line : String) (px py : ℚ)
    (h1 : line ≠ "METRIC") (h2 : line ≠ "INCH") (hsc : scanTC line = none)
    (hlk : lookupTool line st.tools = none) (hxy : scanXY line = some (px, py)) :
    processLine B dbg st line = .ok
      ({ st with
          holes := st.holes ++
            [{ Radius := st.toolRadius, Cx := px * st.factor, Cy := py * st.factor }],
          leftEdge := if st.holes = [] ∨ px * st.factor - st.toolRadius < st.leftEdge
                      then px * st.factor - st.toolRadius else st.leftEdge,
          rightEdge := if st.holes = [] ∨ px * st.factor + st.toolRadius > st.rightEdge
                       then px * st.factor + st.toolRadius else st.rightEdge,
          topEdge := if st.holes = [] ∨ py * st.factor - st.toolRadius < st.topEdge
                     then py * st.factor - st.toolRadius else st.topEdge,
          bottomEdge := if st.holes = [] ∨ py * st.factor + st.toolRadius > st.bottomEdge
                        then py * st.factor + st.toolRadius else st.bottomEdge }, []) := by
  unfold processLine
  rw [if_neg h1, if_neg h2, hsc, hlk, hxy]

/-- Dispatch equation: any other line leaves the state unchanged and is
only logged under `--debug`. -/
theorem processLine_ignored (B : ℚ) (dbg : Bool) (st : State) (line : String)
    (h1 : line ≠ "METRIC") (h2 : line ≠ "INCH") (hsc : scanTC line = none)
    (hlk : lookupTool line st.tools = none) (hxy : scanXY line = none) :
    processLine B dbg st line = .ok (st, if dbg then ["ignored: " ++ line] else []) := by
  unfold processLine
  rw [if_neg h1, if_neg h2, hsc, hlk, hxy]

/-- The initial state satisfies the extent invariant. -/
theorem initState_extentInv : ExtentInv initState := by
  constructor
  · intro _
    exact ⟨rfl, rfl, rfl, rfl⟩
  · intro h hh
    simp [initState] at hh

/-- One line of processing preserves the extent invariant. -/
theorem processLine_extentInv (B : ℚ) (dbg : Bool) (st st2 : State) (line : String)
    (logs : List String) (hI : ExtentInv st)
    (hEq : processLine B dbg st line = .ok (st2, logs)) : ExtentInv st2 := by
  by_cases h1 : line = "METRIC"
  · subst h1
    rw [processLine_metric] at hEq
    simp only [Except.ok.injEq, Prod.mk.injEq] at hEq
    obtain ⟨hst, -⟩ := hEq
    subst hst
    exact hI
  by_cases h2 : line = "INCH"
  · subst h2
    rw [processLine_inch] at hEq
    simp only [Except.ok.injEq, Prod.mk.injEq] at hEq
    obtain ⟨hst, -⟩ := hEq
    subst hst
    exact hI
  cases hsc : scanTC line with
  | some p =>
    obtain ⟨tool, param1⟩ := p
    by_cases hlt : param1 < B
    · rw [processLine_toolDef_err B dbg st line tool param1 h1 h2 hsc hlt] at hEq
      simp at hEq
    · rw [processLine_toolDef_ok B dbg st line tool param1 h1 h2 hsc hlt] at hEq
      simp only [Except.ok.injEq, Prod.mk.injEq] at hEq
      obtain ⟨hst, -⟩ := hEq
      subst hst
      exact hI
  | none =>
    cases hlk : lookupTool line st.tools with
    | some d =>
      rw [processLine_select B dbg st line d h1 h2 hsc hlk] at hEq
      simp only [Except.ok.injEq, Prod.mk.injEq] at hEq
      obtain ⟨hst, -⟩ := hEq
      subst hst
      exact hI
    | none =>
      cases hxy : scanXY line with
      | some p =>
        obtain ⟨px, py⟩ := p
        rw [processLine_coord B dbg st line px py h1 h2 hsc hlk hxy] at hEq
        simp only [Except.ok.injEq, Prod.mk.injEq] at hEq
        obtain ⟨hst, -⟩ := hEq
        subst hst
        constructor
        · intro he
          simp at he
        · intro hh hcons
          cases hself : st.holes with
          | nil =>
            simp only [hself, List.nil_append, List.cons.injEq, and_true] at hcons
            subst hcons
            refine ⟨?_, ?_, ?_, ?_⟩ <;> simp [hself]
          | cons a as =>
            rw [hself] at hcons
            simp only [List.cons_append, List.cons.injEq] at hcons
            exact absurd hcons.2 (by simp)
      | none =>
        rw [processLine_ignored B dbg st line h1 h2 hsc hlk hxy] at hEq
        simp only [Except.ok.injEq, Prod.mk.injEq] at hEq
        obtain ⟨hst, -⟩ := hEq
        subst hst
        exact hI

/-- The whole scanning loop preserves the extent invariant. -/
theorem processLines_extentInv (B : ℚ) (dbg : Bool) :
    ∀ (ls : List String) (st st2 : State) (logs : List String),
      ExtentInv st → processLines B dbg ls st = .ok (st2, logs) → ExtentInv st2 := by
  intro ls
  induction ls with
  | nil =>
    intro st st2 logs hI h
    simp only [processLines, Except.ok.injEq, Prod.mk.injEq] at h
    obtain ⟨hst, -⟩ := h
    subst hst
    exact hI
  | cons l ls ih =>
    intro st st2 logs hI h
    rw [processLines] at h
    cases hl : processLine B dbg st l with
    | error e =>
      rw [hl] at h
      simp at h
    | ok p =>
      obtain ⟨st1, log1⟩ := p
      simp only [hl] at h
      cases hrest : processLines B dbg ls st1 with
      | error e =>
        simp only [hrest] at h
        simp at h
      | ok q =>
        obtain ⟨stq, logq⟩ := q
        simp only [hrest, Except.ok.injEq, Prod.mk.injEq] at h
        obtain ⟨hst, -⟩ := h
        subst hst
        exact ih st1 stq logq (processLine_extentInv B dbg st st1 l log1 hI hl) hrest

/-- The state a line produces does not depend on the `--debug` flag:
only the diagnostics component does. -/
theorem processLine_fst (B : ℚ) (d1 d2 : Bool) (st : State) (line : String) :
    (processLine B d1 st line).map Prod.fst = (processLine B d2 st line).map Prod.fst := by
  by_cases h1 : line = "METRIC"
  · subst h1
    rw [processLine_metric, processLine_metric]
  by_cases h2 : line = "INCH"
  · subst h2
    rw [processLine_inch, processLine_inch]
  cases hsc : scanTC line with
  | some p =>
    obtain ⟨tool, param1⟩ := p
    by_cases hlt : param1 < B
    · rw [processLine_toolDef_err B d1 st line tool param1 h1 h2 hsc hlt,
          processLine_toolDef_err B d2 st line tool param1 h1 h2 hsc hlt]
    · rw [processLine_toolDef_ok B d1 st line tool param1 h1 h2 hsc hlt,
          processLine_toolDef_ok B d2 st line tool param1 h1 h2 hsc hlt]
  | none =>
    cases hlk : lookupTool line st.tools with
    | some d =>
      rw [processLine_select B d1 st line d h1 h2 hsc hlk,
          processLine_select B d2 st line d h1 h2 hsc hlk]
    | none =>
      cases hxy : scanXY line with
      | some p =>
        obtain ⟨px, py⟩ := p
        rw [processLine_coord B d1 st line px py h1 h2 hsc hlk hxy,
            processLine_coord B d2 st line px py h1 h2 hsc hlk hxy]
      | none =>
        rw [processLine_ignored B d1 st line h1 h2 hsc hlk hxy,
            processLine_ignored B d2 st line h1 h2 hsc hlk hxy]
        rfl

/-- The final state of the scanning loop does not depend on the
`--debug` flag. -/
theorem processLines_fst (B : ℚ) (d1 d2 : Bool) :
    ∀ (ls : List String) (st : State),
      (processLines B d1 ls st).map Prod.fst = (processLines B d2 ls st).map Prod.fst := by
  intro ls
  induction ls with
  | nil => intro st; rfl
  | cons l ls ih =>
    intro st
    have hl := processLine_fst B d1 d2 st l
    rw [processLines, processLines]
    cases h1 : processLine B d1 st l with
    | error e =>
      cases h2 : processLine B d2 st l with
      | error e2 =>
        rw [h1, h2] at hl
        simp only [Except.map] at hl
        simp only [h1, h2]
        exact hl
      | ok p2 =>
        rw [h1, h2] at hl
        simp [Except.map] at hl
    | ok p =>
      obtain ⟨st1, log1⟩ := p
      cases h2 : processLine B d2 st l with
      | error e2 =>
        rw [h1, h2] at hl
        simp [Except.map] at hl
      | ok p2 =>
        obtain ⟨stB, logB⟩ := p2
        rw [h1, h2] at hl
        simp [Except.map] at hl
        subst hl
        simp only [h1, h2]
        have hr := ih st1
        cases h3 : processLines B d1 ls st1 with
        | error e3 =>
          cases h4 : processLines B d2 ls st1 with
          | error e4 =>
            rw [h3, h4] at hr
            simp only [Except.map] at hr
            simp only [h3, h4]
            exact hr
          | ok q =>
            rw [h3, h4] at hr
            simp [Except.map] at hr
        | ok q =>
          obtain ⟨stq, logq⟩ := q
          cases h4 : processLines B d2 ls st1 with
          | error e4 =>
            rw [h3, h4] at hr
            simp [Except.map] at hr
          | ok q2 =>
            obtain ⟨stq2, logq2⟩ := q2
            rw [h3, h4] at hr
            simp [Except.map] at hr
            subst hr
            simp only [h3, h4]
            rfl

/-- Claim C1: the spec says the parser validates the SCALED diameter
(raw times unit factor) against the bit diameter.  The code instead
compares the RAW diameter (`param1 < *bitSize` before multiplying by
`factor`, drl2svg.go line 68).  This theorem exhibits both directions of
the divergence: on `INCH` + `T1C0.1` the run aborts fatally although the
scaled diameter 2.54 is at least the bit diameter 0.7, and on a bare
`T1C1.0` (no unit directive, factor 0) the definition is accepted with
scaled diameter 0 although 0 is below the bit diameter 0.7. -/
theorem c1_raw_diameter_check :
    processLines (7/10) false ["INCH", "T1C0.1"] initState =
      .error ("unable to handle tool diameter " ++ "T1C0.1") ∧
    (7/10 : ℚ) ≤ (1/10) * (254/10) ∧
    (∃ st : State, processLines (7/10) false ["T1C1.0"] initState = .ok (st, []) ∧
      st.tools = [("T1", 0)] ∧ (0 : ℚ) < 7/10) := by
  refine ⟨?_, by norm_num, ?_⟩
  · simp [processLines, processLine, scanTC, scanXY, scanInt, scanFloat, scanUFloat,
      scanNat, takeDigits, digitsToNat, expectChar, insertTool, lookupTool, initState]
    all_goals norm_num
  · refine ⟨{ tools := [("T1", 0)], holes := [], toolRadius := 0, maxToolDiameter := 0,
               factor := 0, leftEdge := 0, rightEdge := 0, topEdge := 0, bottomEdge := 0 },
      ?_, rfl, by norm_num⟩
    simp [processLines, processLine, scanTC, scanXY, scanInt, scanFloat, scanUFloat,
      scanNat, takeDigits, digitsToNat, expectChar, insertTool, lookupTool, initState,
      show ("T" ++ toString (1:Int)) = "T1" from rfl,
      show ¬((1:ℚ) < 7/10) from by norm_num]

/-- Claim C2: for a hole of cut radius `R` and bit diameter `B > 0`, the
radius list is `R, R - 0.45B, R - 2(0.45B), ...`, holding exactly the
strictly positive values of that progression, and the circles of a hole
are emitted in reversed (strictly increasing, innermost-first) order,
holes one after another in file order. -/
theorem c2_concentric_circles (B R : ℚ) (hB : 0 < B) :
    (∀ i : ℕ, i < (genRadii R ((45 / 100) * B)).length ↔
      0 < R - (i : ℚ) * ((45 / 100) * B)) ∧
    (∀ (i : ℕ) (hi : i < (genRadii R ((45 / 100) * B)).length),
      (genRadii R ((45 / 100) * B)).get ⟨i, hi⟩ = R - (i : ℚ) * ((45 / 100) * B)) ∧
    List.Sorted (fun a b => a < b) (genRadii R ((45 / 100) * B)).reverse ∧
    (∀ h : Hole, drawHole B h =
      ((genRadii h.Radius ((45 / 100) * B)).reverse).map
        (fun r => { cx := h.Cx, cy := h.Cy, r := r })) ∧
    (∀ holeList : List Hole, drawHoles B holeList = holeList.flatMap (drawHole B)) := by
  have hstep : (0 : ℚ) < (45 / 100) * B := mul_pos (by norm_num) hB
  obtain ⟨h1, h2⟩ := genRadii_spec R ((45 / 100) * B) hstep
  exact ⟨h1, h2, genRadii_reverse_sorted R ((45 / 100) * B) hstep,
    fun h => rfl, fun holeList => rfl⟩

/-- Witness for C2 at `B = 1`, `R = 1`: the radius list is
`[1, 0.55, 0.1]` and its reversal is strictly increasing. -/
theorem c2_concentric_circles_witness :
    (0 : ℚ) < 1 ∧ genRadii 1 ((45 / 100) * 1) = [1, 11/20, 1/10] ∧
    List.Sorted (fun a b => a < b) (genRadii 1 ((45 / 100) * 1)).reverse := by
  refine ⟨by norm_num, ?_, (c2_concentric_circles 1 1 (by norm_num)).2.2.1⟩
  rw [genRadii_eq_radiiLoop 1 ((45 / 100) * 1) (by norm_num) 4 (by norm_num)]
  norm_num [radiiLoop]

/-- Claim C3: the spec's test expects `INCH` then `T1C0.1` at bit
diameter 0.7 to record a scaled diameter of 2.54 mm and, on selection,
a cut radius of 0.92 mm with no fatal error.  The code instead aborts
fatally on the `T1C0.1` line, because it compares the raw diameter 0.1
(not the scaled 2.54) with 0.7. -/
theorem c3_inch_example_fatal :
    processLines (7/10) false ["INCH", "T1C0.1", "T1"] initState =
      .error ("unable to handle tool diameter " ++ "T1C0.1") := by
  simp [processLines, processLine, scanTC, scanXY, scanInt, scanFloat, scanUFloat,
    scanNat, takeDigits, digitsToNat, expectChar, insertTool, lookupTool, initState]
  all_goals norm_num

/-- Claim C4: for any input whose final state has exactly one hole, at
center (10,10) with cut radius 1, and maximum tool diameter 3, the
pre-margin extent is left 9, right 11, top 9, bottom 11, and after the
end-of-input expansion by `maxToolDiameter` on all four sides the extent
is left 6, right 14, top 6, bottom 14. -/
theorem c4_single_hole_extent (B : ℚ) (dbg : Bool) (lines : List String)
    (st : State) (logs : List String) (h : Hole)
    (hrun : processLines B dbg lines initState = .ok (st, logs))
    (hholes : st.holes = [h]) (hR : h.Radius = 1) (hx : h.Cx = 10) (hy : h.Cy = 10)
    (hmax : st.maxToolDiameter = 3) :
    st.leftEdge = 9 ∧ st.rightEdge = 11 ∧ st.topEdge = 9 ∧ st.bottomEdge = 11 ∧
    (expandExtent st).leftEdge = 6 ∧ (expandExtent st).rightEdge = 14 ∧
    (expandExtent st).topEdge = 6 ∧ (expandExtent st).bottomEdge = 14 := by
  have hI := processLines_extentInv B dbg lines initState st logs initState_extentInv hrun
  obtain ⟨hl, hr, ht, hb⟩ := hI.2 h hholes
  refine ⟨?_, ?_, ?_, ?_, ?_, ?_, ?_, ?_⟩ <;>
    simp [expandExtent, hl, hr, ht, hb, hR, hx, hy, hmax] <;> norm_num

/-- Witness for C4: the input `METRIC, T1C3.0, T1, X10.0Y10.0` at bit
diameter 1 produces exactly the one-hole state, and the extents come
out as the claim says. -/
theorem c4_single_hole_extent_witness :
    oneHoleState.leftEdge = 9 ∧ oneHoleState.rightEdge = 11 ∧
    oneHoleState.topEdge = 9 ∧ oneHoleState.bottomEdge = 11 ∧
    (expandExtent oneHoleState).leftEdge = 6 ∧ (expandExtent oneHoleState).rightEdge = 14 ∧
    (expandExtent oneHoleState).topEdge = 6 ∧ (expandExtent oneHoleState).bottomEdge = 14 :=
  c4_single_hole_extent 1 false ["METRIC", "T1C3.0", "T1", "X10.0Y10.0"] oneHoleState []
    { Radius := 1, Cx := 10, Cy := 10 }
    (by
      simp [processLines, processLine, scanTC, scanXY, scanInt, scanFloat, scanUFloat,
        scanNat, takeDigits, digitsToNat, expectChar, insertTool, lookupTool, initState,
        oneHoleState,
        show ("T" ++ toString (1:Int)) = "T1" from rfl]
      all_goals norm_num)
    rfl rfl rfl rfl rfl

/-- Claim C5: a hole whose cut radius is at most 0 (in particular a tool
whose scaled diameter equals the bit diameter) produces no circles. -/
theorem c5_zero_radius_empty (B : ℚ) (h : Hole) (hR : h.Radius ≤ 0) :
    drawHole B h = [] := by
  unfold drawHole
  rw [genRadii_of_nonpos h.Radius ((45 / 100) * B) hR]
  rfl

/-- Witness for C5 at a concrete hole of radius 0. -/
theorem c5_zero_radius_empty_witness :
    drawHole 1 { Radius := 0, Cx := 5, Cy := 5 } = [] :=
  c5_zero_radius_empty 1 { Radius := 0, Cx := 5, Cy := 5 } (by norm_num)

/-- Counterexample to C6 as stated: an input with a tool definition but
no holes.  The pre-margin extent stays zero-initialized, but the margin
expansion still runs, so the extent handed to the output stage is
(-3, 3, -3, 3), not the zero-initialized state. -/
theorem c6_margin_counterexample :
    (∃ st : State, processLines 1 false ["METRIC", "T1C3.0"] initState = .ok (st, []) ∧
      st.holes = []) ∧
    run 1 false ["METRIC", "T1C3.0"] =
      .ok ({ w := 6, h := 6, minx := -3, miny := -3, vw := 6, vh := 6 }, [], []) ∧
    (-3 : ℚ) ≠ 0 := by
  refine ⟨⟨{ tools := [("T1", 3)], holes := [], toolRadius := 0, maxToolDiameter := 3,
              factor := 1, leftEdge := 0, rightEdge := 0, topEdge := 0, bottomEdge := 0 },
      ?_, rfl⟩, ?_, by norm_num⟩
  · simp [processLines, processLine, scanTC, scanXY, scanInt, scanFloat, scanUFloat,
      scanNat, takeDigits, digitsToNat, expectChar, insertTool, lookupTool, initState,
      show ("T" ++ toString (1:Int)) = "T1" from rfl,
      show ¬((3:ℚ) < 1) from by norm_num]
  · simp [run, processLines, processLine, scanTC, scanXY, scanInt, scanFloat, scanUFloat,
      scanNat, takeDigits, digitsToNat, expectChar, insertTool, lookupTool, initState,
      expandExtent, viewport, drawHoles,
      show ("T" ++ toString (1:Int)) = "T1" from rfl,
      show ¬((3:ℚ) < 1) from by norm_num]
    all_goals norm_num

/-- Claim C6 as amended: for any input producing zero holes, the
PRE-MARGIN extent stays at its zero-initialized state (0,0,0,0); the
extent handed to the output stage is that zero extent expanded by
`maxToolDiameter` on all four sides, i.e. (-maxD, maxD, -maxD, maxD). -/
theorem c6_empty_extent (B : ℚ) (dbg : Bool) (lines : List String)
    (st : State) (logs : List String)
    (hrun : processLines B dbg lines initState = .ok (st, logs))
    (hholes : st.holes = []) :
    st.leftEdge = 0 ∧ st.rightEdge = 0 ∧ st.topEdge = 0 ∧ st.bottomEdge = 0 ∧
    (expandExtent st).leftEdge = -st.maxToolDiameter ∧
    (expandExtent st).rightEdge = st.maxToolDiameter ∧
    (expandExtent st).topEdge = -st.maxToolDiameter ∧
    (expandExtent st).bottomEdge = st.maxToolDiameter := by
  have hI := processLines_extentInv B dbg lines initState st logs initState_extentInv hrun
  obtain ⟨hl, hr, ht, hb⟩ := hI.1 hholes
  exact ⟨hl, hr, ht, hb, by simp [expandExtent, hl], by simp [expandExtent, hr],
    by simp [expandExtent, ht], by simp [expandExtent, hb]⟩

/-- Witness for the amended C6: the input `METRIC, T1C3.0` at bit
diameter 1 produces zero holes, zero pre-margin extent and the
(-3, 3, -3, 3) post-margin extent. -/
theorem c6_empty_extent_witness :
    noHoleState.leftEdge = 0 ∧ noHoleState.rightEdge = 0 ∧
    noHoleState.topEdge = 0 ∧ noHoleState.bottomEdge = 0 ∧
    (expandExtent noHoleState).leftEdge = -noHoleState.maxToolDiameter ∧
    (expandExtent noHoleState).rightEdge = noHoleState.maxToolDiameter ∧
    (expandExtent noHoleState).topEdge = -noHoleState.maxToolDiameter ∧
    (expandExtent noHoleState).bottomEdge = noHoleState.maxToolDiameter :=
  c6_empty_extent 1 false ["METRIC", "T1C3.0"] noHoleState []
    (by
      simp [processLines, processLine, scanTC, scanXY, scanInt, scanFloat, scanUFloat,
        scanNat, takeDigits, digitsToNat, expectChar, insertTool, lookupTool, initState,
        noHoleState,
        show ("T" ++ toString (1:Int)) = "T1" from rfl,
        show ¬((3:ℚ) < 1) from by norm_num])
    rfl

/-- Claim C7: a coordinate line before any tool selection does not fail;
it emits a hole whose radius is the zero-initialized selected radius 0
(and, since the scale factor is also still 0, center (0,0)). -/
theorem c7_default_radius (B : ℚ) (dbg : Bool) :
    ∃ st : State, processLines B dbg ["X1.0Y2.0"] initState = .ok (st, []) ∧
      st.holes = [{ Radius := 0, Cx := 0, Cy := 0 }] ∧ st.toolRadius = 0 := by
  refine ⟨{ tools := [], holes := [{ Radius := 0, Cx := 0, Cy := 0 }], toolRadius := 0,
             maxToolDiameter := 0, factor := 0,
             leftEdge := 0, rightEdge := 0, topEdge := 0, bottomEdge := 0 }, ?_, rfl, rfl⟩
  simp [processLines, processLine, scanTC, scanXY, scanInt, scanFloat, scanUFloat,
    scanNat, takeDigits, digitsToNat, expectChar, insertTool, lookupTool, initState]

/-- Claim C8: processing is deterministic and a pure function of the
input lines plus the bit diameter: the parser state (holes, extent,
tool table) and the geometric output (viewport and circle list) are
independent of the only other modelled configuration knob, the
`--debug` flag, which influences the diagnostics alone. -/
theorem c8_deterministic (B : ℚ) (lines : List String) (d1 d2 : Bool) :
    (processLines B d1 lines initState).map Prod.fst
      = (processLines B d2 lines initState).map Prod.fst ∧
    geomOf (run B d1 lines) = geomOf (run B d2 lines) := by
  have hp := processLines_fst B d1 d2 lines initState
  refine ⟨hp, ?_⟩
  unfold run geomOf
  cases h1 : processLines B d1 lines initState with
  | error e =>
    cases h2 : processLines B d2 lines initState with
    | error e2 =>
      rw [h1, h2] at hp
      simp [Except.map] at hp
      simp only [h1, h2, hp]
    | ok p =>
      rw [h1, h2] at hp
      simp [Except.map] at hp
  | ok p =>
    obtain ⟨st1, log1⟩ := p
    cases h2 : processLines B d2 lines initState with
    | error e2 =>
      rw [h1, h2] at hp
      simp [Except.map] at hp
    | ok p2 =>
      obtain ⟨st2, log2⟩ := p2
      rw [h1, h2] at hp
      simp [Except.map] at hp
      subst hp
      simp only [h1, h2]
      rfl

/-- Claim C9: a tool definition `T01C1.0` is stored under the normalized
key `T1` (decimal rendering of the parsed integer), so the bare
selection line `T01` finds no table entry and is silently ignored,
leaving the selected radius unchanged, while `T1` does select it. -/
theorem c9_tool_key_normalization :
    ∃ st st2 : State,
      processLines (7/10) false ["METRIC", "T01C1.0"] initState = .ok (st, []) ∧
      st.tools = [("T1", 1)] ∧ st.toolRadius = 0 ∧
      processLine (7/10) false st "T01" = .ok (st, []) ∧
      processLine (7/10) false st "T1" = .ok (st2, []) ∧
      st2.toolRadius = (1 - 7/10) * (1/2) := by
  refine ⟨{ tools := [("T1", 1)], holes := [], toolRadius := 0, maxToolDiameter := 1,
             factor := 1, leftEdge := 0, rightEdge := 0, topEdge := 0, bottomEdge := 0 },
    { tools := [("T1", 1)], holes := [], toolRadius := 3/20, maxToolDiameter := 1,
      factor := 1, leftEdge := 0, rightEdge := 0, topEdge := 0, bottomEdge := 0 },
    ?_, rfl, rfl, ?_, ?_, by norm_num⟩
  · simp [processLines, processLine, scanTC, scanXY, scanInt, scanFloat, scanUFloat,
      scanNat, takeDigits, digitsToNat, expectChar, insertTool, lookupTool, initState,
      show ("T" ++ toString (1:Int)) = "T1" from rfl,
      show ¬((1:ℚ) < 7/10) from by norm_num]
  · simp [processLine, scanTC, scanXY, scanInt, scanFloat, scanUFloat,
      scanNat, takeDigits, digitsToNat, expectChar, insertTool, lookupTool]
  · simp [processLine, scanTC, scanXY, scanInt, scanFloat, scanUFloat,
      scanNat, takeDigits, digitsToNat, expectChar, insertTool, lookupTool]
    all_goals norm_num

/-- Claim C10: with a positive bit diameter the drawing loop terminates
(the fuel-indexed loop stabilizes once the fuel covers the run), while
with bit diameter 0 and a positive cut radius it never stabilizes (every
extra unit of fuel produces one more circle), and the program itself
does not reject bit diameter 0: the run below is accepted and produces a
hole of positive cut radius 1/2. -/
theorem c10_termination :
    (∀ B R : ℚ, 0 < B → ∀ m : ℕ, radiiFuel R ((45 / 100) * B) ≤ m →
        radiiLoop m R ((45 / 100) * B) =
          radiiLoop (radiiFuel R ((45 / 100) * B)) R ((45 / 100) * B)) ∧
    (∀ R : ℚ, 0 < R → ∀ n : ℕ,
        radiiLoop (n + 1) R ((45 / 100) * 0) ≠ radiiLoop n R ((45 / 100) * 0)) ∧
    (∃ st : State,
        processLines 0 false ["METRIC", "T1C1.0", "T1", "X0.0Y0.0"] initState =
          .ok (st, []) ∧
        st.holes = [{ Radius := 1/2, Cx := 0, Cy := 0 }] ∧ (0 : ℚ) < 1/2) := by
  refine ⟨?_, ?_, ?_⟩
  · intro B R hB m hm
    have hs : (0 : ℚ) < (45 / 100) * B := mul_pos (by norm_num) hB
    apply radiiLoop_eq_of_le
    · calc R ≤ (radiiFuel R ((45 / 100) * B) : ℚ) * ((45 / 100) * B) :=
            le_radiiFuel_mul R ((45 / 100) * B) hs
        _ ≤ (m : ℚ) * ((45 / 100) * B) :=
            mul_le_mul_of_nonneg_right (by exact_mod_cast hm) hs.le
    · exact le_radiiFuel_mul R ((45 / 100) * B) hs
  · intro R hR n hcontra
    rw [show ((45 : ℚ) / 100) * 0 = 0 from by norm_num] at hcontra
    have hlen : ∀ k : ℕ, (radiiLoop k R 0).length = k := by
      intro k
      induction k with
      | zero => rfl
      | succ j ihj => simp [radiiLoop, hR, ihj]
    have h1 := hlen (n + 1)
    rw [hcontra, hlen n] at h1
    simp at h1
  · refine ⟨{ tools := [("T1", 1)], holes := [{ Radius := 1/2, Cx := 0, Cy := 0 }],
               toolRadius := 1/2, maxToolDiameter := 1, factor := 1,
               leftEdge := -(1/2), rightEdge := 1/2, topEdge := -(1/2), bottomEdge := 1/2 },
      ?_, rfl, by norm_num⟩
    simp [processLines, processLine, scanTC, scanXY, scanInt, scanFloat, scanUFloat,
      scanNat, takeDigits, digitsToNat, expectChar, insertTool, lookupTool, initState,
      show ("T" ++ toString (1:Int)) = "T1" from rfl,
      show ¬((1:ℚ) < 0) from by norm_num]

/-- Witness for C10: at `B = 1`, `R = 5` the loop stabilizes, and at
bit diameter 0 with radius 1/2 one extra unit of fuel changes the
output. -/
theorem c10_termination_witness :
    radiiLoop (radiiFuel 5 ((45 / 100) * 1) + 1) 5 ((45 / 100) * 1) =
      radiiLoop (radiiFuel 5 ((45 / 100) * 1)) 5 ((45 / 100) * 1) ∧
    radiiLoop (3 + 1) (1/2) ((45 / 100) * 0) ≠ radiiLoop 3 (1/2) ((45 / 100) * 0) ∧
    radiiLoop (3 + 1) (1/2) ((45 / 100) * 0) = [1/2, 1/2, 1/2, 1/2] :=
  ⟨c10_termination.1 1 5 (by norm_num) (radiiFuel 5 ((45 / 100) * 1) + 1)
      (Nat.le_succ (radiiFuel 5 ((45 / 100) * 1))),
   c10_termination.2.1 (1/2) (by norm_num) 3,
   by norm_num [radiiLoop]⟩

end Drl2svg
